import Mathlib

/-!
# Verification of the matrirc IRC bridge protocol module (src/ircd/proto.rs)

A shallow embedding of the message model, the outbound message builders, the
write loop and the read loop of the bridge, together with theorems settling
the specification claims.

Rust strings are modelled as lists of UTF-8 code units (bytes, as `Nat`).
Rust byte slicing `p[..i]` panics when `i` is not a character boundary; the
builders that slice therefore return `Option` (`none` models the panic).
The asynchronous loops are modelled as functions from the list of drained /
received messages, plus an oracle giving the result of each fallible
effect in order, to the trace of observable effects and the loop outcome.
-/

set_option autoImplicit false

namespace Matrirc

/-- UTF-8 code units of a Rust `String` (each entry a byte value). -/
abbrev Bytes := List Nat

/-- The bytes of the constant literal "matrirc" (host in `message_of`,
fallback reply target in `ircd_sync_read`). -/
def matrircBytes : Bytes := [109, 97, 116, 114, 105, 114, 99]

/-- The bytes of the control-action marker literal: 0x01 followed by
"ACTION " (source: the pattern in `msg.strip_prefix` in `ircd_sync_read`). -/
def actionMarker : Bytes := [1, 65, 67, 84, 73, 79, 78, 32]

/-- The bytes of the literal "Could not forward: " used to build the
failure-report notice body in `ircd_sync_read`. -/
def couldNotForward : Bytes :=
  [67, 111, 117, 108, 100, 32, 110, 111, 116, 32,
   102, 111, 114, 119, 97, 114, 100, 58, 32]

/-- A byte is a UTF-8 continuation byte when its two top bits are 10,
that is when it lies in [0x80, 0xBF]. -/
def isUtf8Continuation (b : Nat) : Bool := 128 ≤ b && b < 192

/-- Rust `str::is_char_boundary p i` for `i ≤ p.len()`: `i` is a boundary
when it is 0, equals the length, or the byte at `i` is not a continuation
byte. Slicing `p[..i]` panics exactly when this is false. -/
def isCharBoundaryAt (p : Bytes) (i : Nat) : Bool :=
  i == 0 || i == p.length ||
    (decide (i < p.length) && !isUtf8Continuation ((p.get? i).getD 0))

/-- The wire command subset handled by this module, from the irc crate's
`Command` enum: the variants the code constructs or matches on, plus
`Other` standing for every remaining variant (matched by the catch-all
arms). -/
inductive Command
  | PING (s : Bytes) (s2 : Option Bytes)
  | PONG (s : Bytes) (s2 : Option Bytes)
  | PRIVMSG (target : Bytes) (msg : Bytes)
  | NOTICE (target : Bytes) (msg : Bytes)
  | ERROR (reason : Bytes)
  | Raw (cmd : Bytes) (args : List Bytes)
  | Other
deriving DecidableEq

/-- The irc crate's `Prefix` as used here: only the `Nickname (nick, user,
host)` variant is ever built (source name: `Prefix`; renamed in this
development). -/
inductive Pfx
  | Nickname (nick : Bytes) (user : Bytes) (host : Bytes)
deriving DecidableEq

/-- The irc crate's `Message`: tags (always `None` in this module), an
optional prefix (field source name: `prefix`) and a command. -/
structure Message where
  tags : Option Unit
  pfx : Option Pfx
  command : Command
deriving DecidableEq

/-- Source enum `IrcMessageType`. -/
inductive IrcMessageType
  | Privmsg
  | Notice
deriving DecidableEq

/-- Source struct `IrcMessage` (the outbound chat event). -/
structure IrcMessage where
  message_type : IrcMessageType
  from_ : Bytes
  target : Bytes
  text : Bytes
deriving DecidableEq

/-- Source enum `MatrixMessageType` (from matrix/proto.rs), the kind tag
passed to `to_matrix`. -/
inductive MatrixMessageType
  | Text
  | Emote
  | Notice
deriving DecidableEq

/-- Source `message_of`: builds a prefixed message. The short user is Rust
`p[..min(p.len(), 6)]`, a byte slice that panics when `min(p.len(), 6)` is
not a character boundary; the panic is modelled as `none`. -/
def message_of (p : Bytes) (command : Command) : Option Message :=
  if isCharBoundaryAt p (min p.length 6) then
    some { tags := none
           pfx := some (Pfx.Nickname p (p.take (min p.length 6)) matrircBytes)
           command := command }
  else
    none

/-- Source `message_of_noprefix` (renamed): a message with no tags and no
prefix. -/
def message_of_nopfx (command : Command) : Message :=
  { tags := none, pfx := none, command := command }

/-- Source `raw_msg`. -/
def raw_msg (msg : Bytes) : Message :=
  message_of_nopfx (Command.Raw msg [])

/-- Source `pong`. -/
def pong (server : Bytes) (server2 : Option Bytes) : Message :=
  message_of_nopfx (Command.PONG server server2)

/-- Source `privmsg`. -/
def privmsg (from_ : Bytes) (target : Bytes) (msg : Bytes) : Option Message :=
  message_of from_ (Command.PRIVMSG target msg)

/-- Source `notice`. -/
def notice (from_ : Bytes) (target : Bytes) (msg : Bytes) : Option Message :=
  message_of from_ (Command.NOTICE target msg)

/-- Source `error`. -/
def error (reason : Bytes) : Message :=
  message_of_nopfx (Command.ERROR reason)

/-- Rust `text.split('\n')` over the bytes of `text`: newline is the
single byte 10, which never occurs inside a multi-byte character, so the
byte-level split coincides with the char-level one. An empty text yields
one empty segment. -/
def splitNl : Bytes → List Bytes
  | [] => [[]]
  | b :: rest =>
    let r := splitNl rest
    if b = 10 then [] :: r else (b :: r.headI) :: r.tail

/-- Rust `.map(..).collect()` over calls that may panic: `none` as soon as
one element's builder panics. -/
def collectMsgs (f : Bytes → Option Message) : List Bytes → Option (List Message)
  | [] => some []
  | l :: ls =>
    match f l, collectMsgs f ls with
    | some m, some ms => some (m :: ms)
    | _, _ => none

/-- Source `impl From<IrcMessage> for Vec<Message>`: split the text on
newlines and build one privmsg/notice per line. -/
def messagesOfIrc (ev : IrcMessage) : Option (List Message) :=
  collectMsgs
    (fun line =>
      match ev.message_type with
      | IrcMessageType.Privmsg => privmsg ev.from_ ev.target line
      | IrcMessageType.Notice => notice ev.from_ ev.target line)
    (splitNl ev.text)

/-- The text payload of a privmsg/notice wire message. -/
def msgText : Message → Bytes
  | { command := Command.PRIVMSG _ t, .. } => t
  | { command := Command.NOTICE _ t, .. } => t
  | _ => []

/-- Whether a command is the `ERROR` variant (the write loop's shutdown
signal). -/
def Command.isError : Command → Bool
  | Command.ERROR _ => true
  | _ => false

/-- Observable transport actions of the write loop: a successful
`writer.send` of a message, or a successful `writer.close` of the send
half. -/
inductive WAct
  | sent (m : Message)
  | closed
deriving DecidableEq

/-- Source `ircd_sync_write`, over the list of messages the queue will
yield before it is closed. `io k` is the success of the k-th transport
operation (send or close) in program order; a `false` models the `?`
propagation of a transport write failure. Returns the trace of successful
transport actions and the loop's `Result` (`true` = `Ok(())`). -/
def writeLoop (io : Nat → Bool) : List Message → List WAct × Bool
  | [] => ([], true)
  | m :: rest =>
    match m.command with
    | Command.ERROR _ =>
      if io 0 then
        if io 1 then ([WAct.sent m, WAct.closed], true)
        else ([WAct.sent m], false)
      else ([], false)
    | _ =>
      if io 0 then
        let r := writeLoop (fun n => io (n + 1)) rest
        (WAct.sent m :: r.1, r.2)
      else ([], false)

/-- Rust `msg.strip_prefix(pat)` over bytes: the remainder when `pat`
leads `msg`, else `none`. -/
def stripLeading : Bytes → Bytes → Option Bytes
  | [], s => some s
  | _ :: _, [] => none
  | p :: ps, b :: bs => if p = b then stripLeading ps bs else none

/-- The inline classification in `ircd_sync_read`'s `PRIVMSG` arm: strip
the control-action marker and tag as `Emote`, or keep the text and tag as
`Text`. -/
def classifyText (msg : Bytes) : MatrixMessageType × Bytes :=
  match stripLeading actionMarker msg with
  | some emote => (MatrixMessageType.Emote, emote)
  | none => (MatrixMessageType.Text, msg)

/-- Observable effects of the read loop: `enqueue` is `matrirc.irc().send`
(a producer push onto the outbound queue), `toMatrix` is
`matrirc.mappings().to_matrix(target, kind, text)`. -/
inductive ROut
  | enqueue (m : Message)
  | toMatrix (target : Bytes) (mtype : MatrixMessageType) (text : Bytes)
deriving DecidableEq

/-- Outcome of the read loop: clean end of stream (`Ok(())`), a fatal
error propagated with `?`, or a Rust panic (from a byte slice off a
character boundary while building the failure notice). -/
inductive ReadResult
  | ok
  | fatalErr
  | panicked
deriving DecidableEq

/-- Source `ircd_sync_read`, over the list of messages the transport
yields before the stream ends. `nick` is `matrirc.irc().nick`; `rt` is the
irc crate's `Message::response_target` (an external collaborator, kept
abstract); `io k` is the result of the k-th fallible effect in program
order (`none` = success, `some e` = failure with error text `e`). Returns
the trace of attempted effects and the loop outcome. -/
def readLoop (nick : Bytes) (rt : Message → Option Bytes) (io : Nat → Option Bytes) :
    List Message → List ROut × ReadResult
  | [] => ([], ReadResult.ok)
  | m :: rest =>
    match m.command with
    | Command.PING s s2 =>
      match io 0 with
      | none =>
        let r := readLoop nick rt (fun n => io (n + 1)) rest
        (ROut.enqueue (pong s s2) :: r.1, r.2)
      | some _ => ([ROut.enqueue (pong s s2)], ReadResult.fatalErr)
    | Command.PRIVMSG target msg =>
      let ct := classifyText msg
      (match io 0 with
      | none =>
        let r := readLoop nick rt (fun n => io (n + 1)) rest
        (ROut.toMatrix target ct.1 ct.2 :: r.1, r.2)
      | some e =>
        match notice nick ((rt m).getD matrircBytes) (couldNotForward ++ e) with
        | none => ([ROut.toMatrix target ct.1 ct.2], ReadResult.panicked)
        | some nmsg =>
          let r := readLoop nick rt (fun n => io (n + 2)) rest
          (ROut.toMatrix target ct.1 ct.2 :: ROut.enqueue nmsg :: r.1, r.2))
    | Command.NOTICE target msg =>
      (match io 0 with
      | none =>
        let r := readLoop nick rt (fun n => io (n + 1)) rest
        (ROut.toMatrix target MatrixMessageType.Notice msg :: r.1, r.2)
      | some e =>
        match notice nick ((rt m).getD matrircBytes) (couldNotForward ++ e) with
        | none =>
          ([ROut.toMatrix target MatrixMessageType.Notice msg], ReadResult.panicked)
        | some nmsg =>
          let r := readLoop nick rt (fun n => io (n + 2)) rest
          (ROut.toMatrix target MatrixMessageType.Notice msg :: ROut.enqueue nmsg :: r.1, r.2))
    | _ => readLoop nick rt io rest

/-- Concatenation of segments with a newline byte between consecutive
segments, the spec's "concatenating their text content with a newline". -/
def joinNl : List Bytes → Bytes
  | [] => []
  | [x] => x
  | x :: y :: ys => x ++ 10 :: joinNl (y :: ys)

/-! ## Helper lemmas -/

theorem splitNl_ne_nil : ∀ s : Bytes, splitNl s ≠ []
  | [] => by simp [splitNl]
  | b :: rest => by
    simp only [splitNl]
    split <;> simp

theorem length_splitNl (s : Bytes) : (splitNl s).length = s.count 10 + 1 := by
  induction s with
  | nil => rfl
  | cons b rest ih =>
    have h := splitNl_ne_nil rest
    have h2 : 1 ≤ (splitNl rest).length := List.length_pos.mpr h
    simp only [splitNl]
    by_cases hb : b = 10
    · subst hb
      simp [List.count_cons, ih]
    · rw [if_neg hb]
      have h3 : (splitNl rest).tail.length = (splitNl rest).length - 1 :=
        List.length_tail _
      have hcount : (b :: rest).count 10 = rest.count 10 := by
        simp [List.count_cons, hb]
      rw [List.length_cons, h3, ih, hcount]
      omega

theorem joinNl_splitNl (s : Bytes) : joinNl (splitNl s) = s := by
  induction s with
  | nil => rfl
  | cons b rest ih =>
    obtain ⟨h, t, hht⟩ := List.exists_cons_of_ne_nil (splitNl_ne_nil rest)
    have hjoin : joinNl (h :: t) = rest := by rw [← hht]; exact ih
    simp only [splitNl]
    by_cases hb : b = 10
    · subst hb
      rw [if_pos rfl, hht]
      simpa [joinNl] using hjoin
    · rw [if_neg hb, hht]
      cases t with
      | nil =>
        simp only [joinNl] at hjoin
        simp [joinNl, hjoin]
      | cons t1 t2 =>
        simp only [joinNl] at hjoin ⊢
        simp [hjoin]

theorem stripLeading_eq (p : Bytes) : ∀ s : Bytes,
    stripLeading p s =
      if s.take p.length = p then some (s.drop p.length) else none := by
  induction p with
  | nil => intro s; simp [stripLeading]
  | cons p ps ih =>
    intro s
    cases s with
    | nil => simp [stripLeading]
    | cons b bs =>
      simp only [stripLeading, List.length_cons, List.take_succ_cons,
        List.drop_succ_cons]
      by_cases hpb : p = b
      · subst hpb
        rw [if_pos rfl, ih bs]
        by_cases hh : bs.take ps.length = ps
        · simp [hh]
        · simp [hh]
      · rw [if_neg hpb]
        have hne : ¬(b :: bs.take ps.length = p :: ps) := by
          intro hcon
          exact hpb (List.cons_eq_cons.mp hcon).1.symm
        simp [hne]

theorem classifyText_eq (msg : Bytes) :
    classifyText msg =
      if msg.take 8 = actionMarker then (MatrixMessageType.Emote, msg.drop 8)
      else (MatrixMessageType.Text, msg) := by
  have h := stripLeading_eq actionMarker msg
  have hlen : actionMarker.length = 8 := rfl
  rw [hlen] at h
  simp only [classifyText, h]
  by_cases hc : msg.take 8 = actionMarker
  · simp [hc]
  · simp [hc]

theorem message_of_eq_some (p : Bytes) (c : Command) (m : Message)
    (h : message_of p c = some m) :
    m = { tags := none
          pfx := some (Pfx.Nickname p (p.take (min p.length 6)) matrircBytes)
          command := c } := by
  unfold message_of at h
  split at h
  · exact (Option.some.inj h).symm
  · exact absurd h (by simp)

theorem message_of_some_of_boundary (p : Bytes) (c : Command)
    (h : isCharBoundaryAt p (min p.length 6) = true) :
    message_of p c =
      some { tags := none
             pfx := some (Pfx.Nickname p (p.take (min p.length 6)) matrircBytes)
             command := c } := by
  simp [message_of, h]

theorem collectMsgs_texts (f : Bytes → Option Message)
    (hf : ∀ l m, f l = some m → msgText m = l) :
    ∀ ls out, collectMsgs f ls = some out →
      out.length = ls.length ∧ out.map msgText = ls := by
  intro ls
  induction ls with
  | nil =>
    intro out h
    simp only [collectMsgs, Option.some.injEq] at h
    subst h
    simp
  | cons l ls ih =>
    intro out h
    simp only [collectMsgs] at h
    cases hfl : f l with
    | none => rw [hfl] at h; exact absurd h (by simp)
    | some m =>
      cases hcl : collectMsgs f ls with
      | none => rw [hfl, hcl] at h; exact absurd h (by simp)
      | some ms =>
        rw [hfl, hcl] at h
        simp only [Option.some.injEq] at h
        subst h
        obtain ⟨h1, h2⟩ := ih ms hcl
        simp [h1, h2, hf l m hfl]

theorem collectMsgs_mem (f : Bytes → Option Message) :
    ∀ ls out, collectMsgs f ls = some out →
      ∀ m ∈ out, ∃ l, l ∈ ls ∧ f l = some m := by
  intro ls
  induction ls with
  | nil =>
    intro out h
    simp only [collectMsgs, Option.some.injEq] at h
    subst h
    simp
  | cons l ls ih =>
    intro out h
    simp only [collectMsgs] at h
    cases hfl : f l with
    | none => rw [hfl] at h; exact absurd h (by simp)
    | some m0 =>
      cases hcl : collectMsgs f ls with
      | none => rw [hfl, hcl] at h; exact absurd h (by simp)
      | some ms =>
        rw [hfl, hcl] at h
        simp only [Option.some.injEq] at h
        subst h
        intro m hm
        rcases List.mem_cons.mp hm with hm0 | hms
        · exact ⟨l, List.mem_cons_self _ _, hm0 ▸ hfl⟩
        · obtain ⟨l2, hl2, hfl2⟩ := ih ms hcl m hms
          exact ⟨l2, List.mem_cons_of_mem _ hl2, hfl2⟩

theorem readLoop_cons_ping (nick : Bytes) (rt : Message → Option Bytes)
    (io : Nat → Option Bytes) (tg : Option Unit) (pf : Option Pfx)
    (s : Bytes) (s2 : Option Bytes) (rest : List Message) :
    readLoop nick rt io
        ({ tags := tg, pfx := pf, command := Command.PING s s2 } :: rest) =
      (match io 0 with
       | none =>
         (ROut.enqueue (pong s s2) ::
            (readLoop nick rt (fun n => io (n + 1)) rest).1,
          (readLoop nick rt (fun n => io (n + 1)) rest).2)
       | some _ => ([ROut.enqueue (pong s s2)], ReadResult.fatalErr)) := by
  cases hio : io 0 <;> simp [readLoop, hio]

theorem readLoop_cons_privmsg (nick : Bytes) (rt : Message → Option Bytes)
    (io : Nat → Option Bytes) (tg : Option Unit) (pf : Option Pfx)
    (target msg : Bytes) (rest : List Message) :
    readLoop nick rt io
        ({ tags := tg, pfx := pf, command := Command.PRIVMSG target msg } :: rest) =
      (match io 0 with
       | none =>
         (ROut.toMatrix target (classifyText msg).1 (classifyText msg).2 ::
            (readLoop nick rt (fun n => io (n + 1)) rest).1,
          (readLoop nick rt (fun n => io (n + 1)) rest).2)
       | some e =>
         match notice nick
             ((rt { tags := tg, pfx := pf,
                    command := Command.PRIVMSG target msg }).getD matrircBytes)
             (couldNotForward ++ e) with
         | none =>
           ([ROut.toMatrix target (classifyText msg).1 (classifyText msg).2],
            ReadResult.panicked)
         | some nmsg =>
           (ROut.toMatrix target (classifyText msg).1 (classifyText msg).2 ::
              ROut.enqueue nmsg ::
              (readLoop nick rt (fun n => io (n + 2)) rest).1,
            (readLoop nick rt (fun n => io (n + 2)) rest).2)) := by
  cases hio : io 0 with
  | none => simp [readLoop, hio]
  | some e =>
    cases hn : notice nick
        ((rt { tags := tg, pfx := pf,
               command := Command.PRIVMSG target msg }).getD matrircBytes)
        (couldNotForward ++ e) <;>
      simp [readLoop, hio, hn]

theorem readLoop_cons_notice (nick : Bytes) (rt : Message → Option Bytes)
    (io : Nat → Option Bytes) (tg : Option Unit) (pf : Option Pfx)
    (target msg : Bytes) (rest : List Message) :
    readLoop nick rt io
        ({ tags := tg, pfx := pf, command := Command.NOTICE target msg } :: rest) =
      (match io 0 with
       | none =>
         (ROut.toMatrix target MatrixMessageType.Notice msg ::
            (readLoop nick rt (fun n => io (n + 1)) rest).1,
          (readLoop nick rt (fun n => io (n + 1)) rest).2)
       | some e =>
         match notice nick
             ((rt { tags := tg, pfx := pf,
                    command := Command.NOTICE target msg }).getD matrircBytes)
             (couldNotForward ++ e) with
         | none =>
           ([ROut.toMatrix target MatrixMessageType.Notice msg],
            ReadResult.panicked)
         | some nmsg =>
           (ROut.toMatrix target MatrixMessageType.Notice msg ::
              ROut.enqueue nmsg ::
              (readLoop nick rt (fun n => io (n + 2)) rest).1,
            (readLoop nick rt (fun n => io (n + 2)) rest).2)) := by
  cases hio : io 0 with
  | none => simp [readLoop, hio]
  | some e =>
    cases hn : notice nick
        ((rt { tags := tg, pfx := pf,
               command := Command.NOTICE target msg }).getD matrircBytes)
        (couldNotForward ++ e) <;>
      simp [readLoop, hio, hn]

theorem notice_some_of_boundary (nick t b : Bytes)
    (h : isCharBoundaryAt nick (min nick.length 6) = true) :
    notice nick t b =
      some { tags := none
             pfx := some (Pfx.Nickname nick (nick.take (min nick.length 6))
               matrircBytes)
             command := Command.NOTICE t b } :=
  message_of_some_of_boundary nick (Command.NOTICE t b) h

theorem isError_iff (c : Command) :
    c.isError = true ↔ ∃ r, c = Command.ERROR r := by
  cases c <;> simp [Command.isError]

theorem writeLoop_cons_err (io : Nat → Bool) (m : Message) (rest : List Message)
    (r : Bytes) (h : m.command = Command.ERROR r) :
    writeLoop io (m :: rest) =
      if io 0 then
        if io 1 then ([WAct.sent m, WAct.closed], true) else ([WAct.sent m], false)
      else ([], false) := by
  obtain ⟨tg, pf, c⟩ := m
  simp only at h
  subst h
  rfl

theorem writeLoop_cons_ne (io : Nat → Bool) (m : Message) (rest : List Message)
    (h : m.command.isError = false) :
    writeLoop io (m :: rest) =
      if io 0 then
        (WAct.sent m :: (writeLoop (fun n => io (n + 1)) rest).1,
         (writeLoop (fun n => io (n + 1)) rest).2)
      else ([], false) := by
  obtain ⟨tg, pf, c⟩ := m
  cases c <;> first
    | rfl
    | (exact absurd h (by simp [Command.isError]))

/-! ## Claim theorems -/

/-- C1 (amended): for any nickname whose byte index `min(len, 6)` falls on
a UTF-8 character boundary, `privmsg` and `notice` construction succeeds,
and the short-user field of the resulting prefix is the byte-oriented
truncation of the nickname: it has length `min(len(nickname), 6)` and is a
prefix of the nickname. (As originally stated the claim fails: when the
index falls inside a multi-byte character the Rust byte slice panics; see
the counterexample.) -/
theorem c1_short_user_truncation (p t m : Bytes)
    (h : isCharBoundaryAt p (min p.length 6) = true) :
    privmsg p t m =
      some { tags := none
             pfx := some (Pfx.Nickname p (p.take (min p.length 6)) matrircBytes)
             command := Command.PRIVMSG t m } ∧
    notice p t m =
      some { tags := none
             pfx := some (Pfx.Nickname p (p.take (min p.length 6)) matrircBytes)
             command := Command.NOTICE t m } ∧
    (p.take (min p.length 6)).length = min p.length 6 ∧
    p.take (min p.length 6) ++ p.drop (min p.length 6) = p := by
  refine ⟨?_, ?_, ?_, ?_⟩
  · exact message_of_some_of_boundary p (Command.PRIVMSG t m) h
  · exact message_of_some_of_boundary p (Command.NOTICE t m) h
  · rw [List.length_take]
    omega
  · exact List.take_append_drop _ _

/-- C1 counterexample: for the nickname whose bytes are "aaaaa" followed
by the two-byte character 0xC3 0xA9, byte index 6 lies inside the last
character, so the slice `p[..6]` panics and construction fails instead of
succeeding. -/
theorem c1_nonboundary_nick_panics :
    privmsg [97, 97, 97, 97, 97, 195, 169] [116] [104] = none ∧
    notice [97, 97, 97, 97, 97, 195, 169] [116] [104] = none := by
  exact ⟨by decide, by decide⟩

/-- C1 witness: the amended theorem applied to the ASCII nickname
"alice". -/
theorem c1_short_user_truncation_witness :
    isCharBoundaryAt [97, 108, 105, 99, 101] (min (List.length [97, 108, 105, 99, 101]) 6) = true ∧
    privmsg [97, 108, 105, 99, 101] [116] [104] =
      some { tags := none
             pfx := some (Pfx.Nickname [97, 108, 105, 99, 101]
               (List.take (min (List.length [97, 108, 105, 99, 101]) 6) [97, 108, 105, 99, 101])
               matrircBytes)
             command := Command.PRIVMSG [116] [104] } :=
  ⟨by decide, (c1_short_user_truncation [97, 108, 105, 99, 101] [116] [104] (by decide)).1⟩

/-- C2 (amended): for every outbound chat event whose conversion to wire
messages succeeds (that is, whose from-field byte truncation falls on a
character boundary), the conversion yields exactly `count(newline, text) + 1`
messages, and concatenating the emitted messages' text contents with a
newline in order reconstructs the original text. (As originally stated
the claim fails: when the from field's byte slice panics the conversion
yields no messages at all; see the counterexample.) -/
theorem c2_line_split_reconstruction (ev : IrcMessage) (msgs : List Message)
    (h : messagesOfIrc ev = some msgs) :
    msgs.length = ev.text.count 10 + 1 ∧
    joinNl (msgs.map msgText) = ev.text := by
  have hf : ∀ (l : Bytes) (m : Message),
      (fun line =>
        match ev.message_type with
        | IrcMessageType.Privmsg => privmsg ev.from_ ev.target line
        | IrcMessageType.Notice => notice ev.from_ ev.target line) l = some m →
      msgText m = l := by
    intro l m hm
    cases hty : ev.message_type <;> rw [hty] at hm
    · rw [message_of_eq_some _ _ _ hm]
      rfl
    · rw [message_of_eq_some _ _ _ hm]
      rfl
  obtain ⟨h1, h2⟩ := collectMsgs_texts _ hf _ _ h
  exact ⟨by rw [h1, length_splitNl], by rw [h2, joinNl_splitNl]⟩

/-- C2 counterexample: an event with text "h\ni" (one newline, so two
lines) but with the from field "aaaaa" + 0xC3 0xA9; the conversion
panics (yields none), not `count + 1 = 2` messages. -/
theorem c2_nonboundary_from_panics :
    messagesOfIrc
      { message_type := IrcMessageType.Privmsg
        from_ := [97, 97, 97, 97, 97, 195, 169]
        target := [35]
        text := [104, 10, 105] } = none := by
  decide

/-- C2 witness: the amended theorem applied to a concrete two-line
event. -/
theorem c2_line_split_reconstruction_witness :
    messagesOfIrc
      { message_type := IrcMessageType.Privmsg
        from_ := [110], target := [35], text := [104, 10, 105] } =
      some [{ tags := none, pfx := some (Pfx.Nickname [110] [110] matrircBytes)
              command := Command.PRIVMSG [35] [104] },
            { tags := none, pfx := some (Pfx.Nickname [110] [110] matrircBytes)
              command := Command.PRIVMSG [35] [105] }] ∧
    (2 = List.count 10 [104, 10, 105] + 1 ∧
     joinNl [[104], [105]] = [104, 10, 105]) := by
  refine ⟨by decide, ?_⟩
  have h := c2_line_split_reconstruction
    { message_type := IrcMessageType.Privmsg
      from_ := [110], target := [35], text := [104, 10, 105] }
    [{ tags := none, pfx := some (Pfx.Nickname [110] [110] matrircBytes)
       command := Command.PRIVMSG [35] [104] },
     { tags := none, pfx := some (Pfx.Nickname [110] [110] matrircBytes)
       command := Command.PRIVMSG [35] [105] }]
    (by decide)
  simpa using h

/-- C6: every wire message emitted by a successful conversion of an
outbound chat event has a command variant matching the event's kind
(Privmsg to PRIVMSG, Notice to NOTICE), carries the original target in
that command, and carries the original from field as the nickname of its
prefix. -/
theorem c6_variant_and_addressing (ev : IrcMessage) (msgs : List Message)
    (h : messagesOfIrc ev = some msgs) (m : Message) (hm : m ∈ msgs) :
    (∃ u, m.pfx = some (Pfx.Nickname ev.from_ u matrircBytes)) ∧
    (match ev.message_type with
     | IrcMessageType.Privmsg => ∃ t, m.command = Command.PRIVMSG ev.target t
     | IrcMessageType.Notice => ∃ t, m.command = Command.NOTICE ev.target t) := by
  obtain ⟨l, hl, hfl⟩ := collectMsgs_mem _ _ _ h m hm
  cases hty : ev.message_type <;> rw [hty] at hfl <;>
    rw [message_of_eq_some _ _ _ hfl] <;> exact ⟨⟨_, rfl⟩, ⟨l, rfl⟩⟩

/-- C6 witness: the theorem applied to a concrete event and its first
emitted message. -/
theorem c6_variant_and_addressing_witness :
    (∃ u, (Message.mk none (some (Pfx.Nickname [110] [110] matrircBytes))
        (Command.PRIVMSG [35] [104])).pfx = some (Pfx.Nickname [110] u matrircBytes)) ∧
    (∃ t, (Message.mk none (some (Pfx.Nickname [110] [110] matrircBytes))
        (Command.PRIVMSG [35] [104])).command = Command.PRIVMSG [35] t) := by
  have h := c6_variant_and_addressing
    { message_type := IrcMessageType.Privmsg
      from_ := [110], target := [35], text := [104] }
    [{ tags := none, pfx := some (Pfx.Nickname [110] [110] matrircBytes)
       command := Command.PRIVMSG [35] [104] }]
    (by decide) _ (List.mem_singleton.mpr rfl)
  exact h

/-- C3: when the write loop drains a queue whose first `ERROR` message is
`e`, the trace of transport actions is always (for every pattern of
transport failures) a sublist of: send each earlier message, send `e`,
close the send half; and when no transport operation fails it is exactly
that, the loop returns success, and in particular no message queued after
`e` is ever sent. -/
theorem c3_write_error_shutdown (pre post : List Message) (e : Message)
    (io : Nat → Bool)
    (hpre : ∀ m ∈ pre, m.command.isError = false)
    (he : e.command.isError = true) :
    List.Sublist (writeLoop io (pre ++ e :: post)).1
      (pre.map WAct.sent ++ [WAct.sent e, WAct.closed]) ∧
    ((∀ k, io k = true) →
      writeLoop io (pre ++ e :: post) =
        (pre.map WAct.sent ++ [WAct.sent e, WAct.closed], true)) := by
  induction pre generalizing io with
  | nil =>
    obtain ⟨r, hr⟩ := (isError_iff e.command).mp he
    rw [List.nil_append, List.map_nil, List.nil_append,
      writeLoop_cons_err io e post r hr]
    constructor
    · cases h0 : io 0
      · simp
      · cases h1 : io 1
        · simp only [if_true, if_false, Bool.false_eq_true, if_neg, ite_true,
            ite_false]
          exact List.Sublist.cons₂ _ (List.nil_sublist _)
        · simp
    · intro hall
      rw [hall 0, hall 1]
      simp
  | cons m pre ih =>
    have hm : m.command.isError = false := hpre m (List.mem_cons_self _ _)
    have hpre2 : ∀ x ∈ pre, x.command.isError = false := fun x hx =>
      hpre x (List.mem_cons_of_mem _ hx)
    have ihh := ih (fun n => io (n + 1)) hpre2
    rw [List.cons_append, writeLoop_cons_ne io m (pre ++ e :: post) hm]
    constructor
    · cases h0 : io 0
      · simp
      · simp only [ite_true, List.map_cons, List.cons_append]
        exact List.Sublist.cons₂ _ ihh.1
    · intro hall
      rw [hall 0]
      have h2 := ihh.2 (fun k => hall (k + 1))
      rw [if_pos rfl, h2]
      simp

/-- C3 witness: a concrete queue with one plain message, an error frame
and one message behind it, drained with no transport failure. -/
theorem c3_write_error_shutdown_witness :
    (∀ m ∈ [message_of_nopfx Command.Other], m.command.isError = false) ∧
    (error [98]).command.isError = true ∧
    writeLoop (fun _ => true)
        ([message_of_nopfx Command.Other] ++ error [98] :: [pong [97] none]) =
      ([WAct.sent (message_of_nopfx Command.Other), WAct.sent (error [98]),
        WAct.closed], true) := by
  refine ⟨by decide, by decide, ?_⟩
  have h := (c3_write_error_shutdown [message_of_nopfx Command.Other]
    [pong [97] none] (error [98]) (fun _ => true)
    (by decide) (by decide)).2 (fun k => rfl)
  rw [h]
  rfl

/-- C9: when the queue is closed after yielding messages none of which is
an `ERROR` frame, and no transport write fails, the write loop sends them
all, terminates reporting success, and never closes the send half. -/
theorem c9_write_queue_closed (q : List Message) (io : Nat → Bool)
    (h1 : ∀ m ∈ q, m.command.isError = false) (h2 : ∀ k, io k = true) :
    writeLoop io q = (q.map WAct.sent, true) ∧
    WAct.closed ∉ (writeLoop io q).1 := by
  have he : writeLoop io q = (q.map WAct.sent, true) := by
    induction q generalizing io with
    | nil => rfl
    | cons m rest ih =>
      have hm := h1 m (List.mem_cons_self _ _)
      rw [writeLoop_cons_ne io m rest hm, h2 0, if_pos rfl,
        ih (fun n => io (n + 1)) (fun x hx => h1 x (List.mem_cons_of_mem _ hx))
          (fun k => h2 (k + 1))]
      simp
  refine ⟨he, ?_⟩
  rw [he]
  simp

/-- C9 witness: a concrete error-free queue drained to closure with no
transport failure. -/
theorem c9_write_queue_closed_witness :
    writeLoop (fun _ => true) [message_of_nopfx Command.Other, pong [97] none] =
      ([WAct.sent (message_of_nopfx Command.Other), WAct.sent (pong [97] none)],
       true) ∧
    WAct.closed ∉
      (writeLoop (fun _ => true)
        [message_of_nopfx Command.Other, pong [97] none]).1 := by
  have h := c9_write_queue_closed
    [message_of_nopfx Command.Other, pong [97] none] (fun _ => true)
    (by decide) (fun k => rfl)
  exact ⟨by rw [h.1]; rfl, h.2⟩

/-- C8: `pong`, `error` and `raw_msg` build messages with no prefix; every
message built by `privmsg` or `notice` carries a prefix whose host field
is the constant "matrirc" literal identifying the bridge. -/
theorem c8_prefix_policy (s r t f m : Bytes) (s2 : Option Bytes) (msg : Message)
    (hp : privmsg f t m = some msg) :
    (pong s s2).pfx = none ∧ (error r).pfx = none ∧ (raw_msg r).pfx = none ∧
    (∃ u, msg.pfx = some (Pfx.Nickname f u matrircBytes)) ∧
    (∀ msg2 : Message, notice f t m = some msg2 →
      ∃ u, msg2.pfx = some (Pfx.Nickname f u matrircBytes)) := by
  refine ⟨rfl, rfl, rfl, ?_, ?_⟩
  · rw [message_of_eq_some _ _ _ hp]
    exact ⟨_, rfl⟩
  · intro msg2 hn
    rw [message_of_eq_some _ _ _ hn]
    exact ⟨_, rfl⟩

/-- C8 witness: the theorem applied to concrete byte strings. -/
theorem c8_prefix_policy_witness :
    (pong [97] none).pfx = none ∧ (error [98]).pfx = none ∧
    (raw_msg [98]).pfx = none ∧
    (∃ u, (Message.mk none (some (Pfx.Nickname [110] [110] matrircBytes))
        (Command.PRIVMSG [116] [104])).pfx = some (Pfx.Nickname [110] u matrircBytes)) ∧
    (∀ msg2 : Message, notice [110] [116] [104] = some msg2 →
      ∃ u, msg2.pfx = some (Pfx.Nickname [110] u matrircBytes)) := by
  have h := c8_prefix_policy [97] [98] [116] [110] [104] none
    { tags := none, pfx := some (Pfx.Nickname [110] [110] matrircBytes)
      command := Command.PRIVMSG [116] [104] }
    (by decide)
  simpa using h

/-- C4: for every inbound PRIVMSG the read loop forwards to the backend
with kind Emote and the remainder text when the text begins with the
control byte 0x01 immediately followed by "ACTION " (the marker is
stripped, nothing else), and otherwise with kind Text and the text
unchanged; this holds whatever the forwarding outcome. -/
theorem c4_privmsg_classification (nick : Bytes) (rt : Message → Option Bytes)
    (io : Nat → Option Bytes) (tg : Option Unit) (pf : Option Pfx)
    (target msg : Bytes) (rest : List Message) :
    (readLoop nick rt io
        ({ tags := tg, pfx := pf,
           command := Command.PRIVMSG target msg } :: rest)).1.head? =
      some (if msg.take 8 = actionMarker
            then ROut.toMatrix target MatrixMessageType.Emote (msg.drop 8)
            else ROut.toMatrix target MatrixMessageType.Text msg) := by
  rw [readLoop_cons_privmsg]
  have hc := classifyText_eq msg
  cases hio : io 0 with
  | none =>
    by_cases h : msg.take 8 = actionMarker <;> simp [hc, h]
  | some e =>
    cases hn : notice nick
        ((rt { tags := tg, pfx := pf,
               command := Command.PRIVMSG target msg }).getD matrircBytes)
        (couldNotForward ++ e) with
    | none => by_cases h : msg.take 8 = actionMarker <;> simp [hn, hc, h]
    | some nmsg => by_cases h : msg.take 8 = actionMarker <;> simp [hn, hc, h]

/-- C7: `pong` builds a PONG carrying the same tokens and no prefix; on an
inbound PING the read loop enqueues exactly that one message and continues
when the enqueue succeeds, and propagates a fatal error terminating the
loop when the enqueue fails; nothing else is done for a ping. -/
theorem c7_ping_pong (nick : Bytes) (rt : Message → Option Bytes)
    (io : Nat → Option Bytes) (tg : Option Unit) (pf : Option Pfx)
    (s : Bytes) (s2 : Option Bytes) (rest : List Message) :
    pong s s2 = { tags := none, pfx := none, command := Command.PONG s s2 } ∧
    (io 0 = none →
      readLoop nick rt io
          ({ tags := tg, pfx := pf, command := Command.PING s s2 } :: rest) =
        (ROut.enqueue (pong s s2) ::
           (readLoop nick rt (fun n => io (n + 1)) rest).1,
         (readLoop nick rt (fun n => io (n + 1)) rest).2)) ∧
    (∀ e, io 0 = some e →
      readLoop nick rt io
          ({ tags := tg, pfx := pf, command := Command.PING s s2 } :: rest) =
        ([ROut.enqueue (pong s s2)], ReadResult.fatalErr)) := by
  refine ⟨rfl, ?_, ?_⟩
  · intro h
    rw [readLoop_cons_ping]
    simp [h]
  · intro e h
    rw [readLoop_cons_ping]
    simp [h]

/-- C7 witness: a concrete ping with a successful enqueue. -/
theorem c7_ping_pong_witness :
    ((fun _ : Nat => (none : Option Bytes)) 0 = none) ∧
    readLoop [110] (fun _ => none) (fun _ => none)
        [{ tags := none, pfx := none, command := Command.PING [97] none }] =
      ([ROut.enqueue (pong [97] none)], ReadResult.ok) := by
  have h := (c7_ping_pong [110] (fun _ => none) (fun _ => none)
    none none [97] none []).2.1 rfl
  refine ⟨rfl, ?_⟩
  rw [h]
  rfl

/-- C5 (amended): on a forwarding failure for an inbound PRIVMSG or
NOTICE, provided the local nick's byte truncation at `min(len, 6)` falls
on a character boundary (in particular for every ASCII nick), the read
loop enqueues exactly one NOTICE addressed to the inbound message's reply
target when the transport supplies one and to the fixed fallback name
otherwise, and continues with the remaining inbound messages whatever the
outcome of that secondary enqueue. (As originally stated the claim fails:
when the nick's truncation splits a character the notice construction
panics and the loop dies; see the counterexample.) -/
theorem c5_forward_failure_recovery (nick : Bytes) (rt : Message → Option Bytes)
    (io : Nat → Option Bytes) (e : Bytes) (tg : Option Unit) (pf : Option Pfx)
    (target msg : Bytes) (rest : List Message)
    (hb : isCharBoundaryAt nick (min nick.length 6) = true)
    (hf : io 0 = some e) :
    readLoop nick rt io
        ({ tags := tg, pfx := pf, command := Command.PRIVMSG target msg } :: rest) =
      (ROut.toMatrix target (classifyText msg).1 (classifyText msg).2 ::
         ROut.enqueue
           { tags := none
             pfx := some (Pfx.Nickname nick (nick.take (min nick.length 6))
               matrircBytes)
             command := Command.NOTICE
               ((rt { tags := tg, pfx := pf,
                      command := Command.PRIVMSG target msg }).getD matrircBytes)
               (couldNotForward ++ e) } ::
         (readLoop nick rt (fun n => io (n + 2)) rest).1,
       (readLoop nick rt (fun n => io (n + 2)) rest).2) ∧
    readLoop nick rt io
        ({ tags := tg, pfx := pf, command := Command.NOTICE target msg } :: rest) =
      (ROut.toMatrix target MatrixMessageType.Notice msg ::
         ROut.enqueue
           { tags := none
             pfx := some (Pfx.Nickname nick (nick.take (min nick.length 6))
               matrircBytes)
             command := Command.NOTICE
               ((rt { tags := tg, pfx := pf,
                      command := Command.NOTICE target msg }).getD matrircBytes)
               (couldNotForward ++ e) } ::
         (readLoop nick rt (fun n => io (n + 2)) rest).1,
       (readLoop nick rt (fun n => io (n + 2)) rest).2) := by
  constructor
  · rw [readLoop_cons_privmsg]
    simp [hf, notice_some_of_boundary _ _ _ hb]
  · rw [readLoop_cons_notice]
    simp [hf, notice_some_of_boundary _ _ _ hb]

/-- C5 counterexample: with the nick "aaaaa" + 0xC3 0xA9 (whose byte 6 is
inside the last character) a forwarding failure makes the loop panic while
building the secondary notice: no notice is enqueued and the subsequent
ping is never processed, contradicting the claim that the loop does not
terminate and enqueues exactly one notice. -/
theorem c5_nonboundary_nick_panic :
    readLoop [97, 97, 97, 97, 97, 195, 169] (fun _ => none) (fun _ => some [101])
        [{ tags := none, pfx := none, command := Command.PRIVMSG [35, 114] [104, 105] },
         { tags := none, pfx := none, command := Command.PING [97] none }] =
      ([ROut.toMatrix [35, 114] MatrixMessageType.Text [104, 105]],
       ReadResult.panicked) := by
  decide

/-- C5 witness: ASCII nick, a failing forward with no reply target and a
failing secondary enqueue; the loop enqueues one fallback-addressed notice
and goes on to answer the following ping. -/
theorem c5_forward_failure_recovery_witness :
    isCharBoundaryAt [110] (min (List.length [110]) 6) = true ∧
    readLoop [110] (fun _ => none) (fun k => if k ≤ 1 then some [101] else none)
        [{ tags := none, pfx := none, command := Command.PRIVMSG [35, 114] [104, 105] },
         { tags := none, pfx := none, command := Command.PING [97] none }] =
      ([ROut.toMatrix [35, 114] MatrixMessageType.Text [104, 105],
        ROut.enqueue
          { tags := none
            pfx := some (Pfx.Nickname [110] [110] matrircBytes)
            command := Command.NOTICE matrircBytes (couldNotForward ++ [101]) },
        ROut.enqueue (pong [97] none)], ReadResult.ok) := by
  refine ⟨by decide, ?_⟩
  have h := (c5_forward_failure_recovery [110] (fun _ => none)
    (fun k => if k ≤ 1 then some [101] else none) [101] none none
    [35, 114] [104, 105]
    [{ tags := none, pfx := none, command := Command.PING [97] none }]
    (by decide) (by decide)).1
  rw [h]
  decide

/-- C10: the emote detection matches only a leading marker: the text
"0x01 ACTION waves 0x01" is forwarded as kind Emote with text
"waves 0x01" keeping the trailing control byte; the text "0x01 ACTION"
with no trailing space is forwarded as kind Text unchanged, leading
control byte included; and in general the forwarded text is always the
inbound text with bytes dropped only from the front (8 when the marker
leads, 0 otherwise), so a trailing byte is never stripped. -/
theorem c10_emote_marker_edges :
    readLoop [110] (fun _ => none) (fun _ => none)
        [{ tags := none, pfx := none,
           command := Command.PRIVMSG [35]
             [1, 65, 67, 84, 73, 79, 78, 32, 119, 97, 118, 101, 115, 1] }] =
      ([ROut.toMatrix [35] MatrixMessageType.Emote [119, 97, 118, 101, 115, 1]],
       ReadResult.ok) ∧
    readLoop [110] (fun _ => none) (fun _ => none)
        [{ tags := none, pfx := none,
           command := Command.PRIVMSG [35] [1, 65, 67, 84, 73, 79, 78] }] =
      ([ROut.toMatrix [35] MatrixMessageType.Text [1, 65, 67, 84, 73, 79, 78]],
       ReadResult.ok) ∧
    (∀ msg : Bytes, (classifyText msg).2 =
      msg.drop (if msg.take 8 = actionMarker then 8 else 0)) := by
  refine ⟨by decide, by decide, ?_⟩
  intro msg
  rw [classifyText_eq]
  by_cases h : msg.take 8 = actionMarker <;> simp [h]

end Matrirc
